import Mathlib

/-!
Verification of the KittenTTS MCP server (`mcp_server.py`).

Texts are modelled as `List Char`.  Python string primitives used by the
server (`strip`, `rfind`, `startswith`, `endswith`, slicing, `rsplit`) are
embedded below, and the pure text-processing core of the server
(`_split_text`, the text assembly in `speak` and `announce`, and the
control flow of `_generate_and_play`) is translated definition by
definition from the source.
-/

namespace KittenTTS

/-- Convert a string literal to the `List Char` representation used throughout. -/
def chars (s : String) : List Char := s.toList

/-- Python `str.strip()` whitespace class (ASCII part): space, tab, newline,
vertical tab, form feed, carriage return. -/
def pyIsSpace (c : Char) : Bool := (chars " \t\n\x0b\x0c\r").contains c

/-- Python `s.strip()`: drop leading and trailing whitespace. -/
def pyStrip (s : List Char) : List Char :=
  ((s.dropWhile pyIsSpace).reverse.dropWhile pyIsSpace).reverse

/-- Helper for Python `s.rfind(pat)`: the largest index `j ≥ i` such that
`pat` occurs in `s` at offset `j - i` (where `i` is the index of the head
of `s` in the enclosing string), or `none`. -/
def rfindFrom (pat : List Char) : List Char → Nat → Option Nat
  | [], i => if List.isPrefixOf pat [] then some i else none
  | c :: rest, i =>
    match rfindFrom pat rest (i + 1) with
    | some j => some j
    | none => if List.isPrefixOf pat (c :: rest) then some i else none

/-- Python `s.rfind(pat)`: index of the rightmost occurrence of `pat` in `s`,
or `-1` when there is none. -/
def pyRfind (pat s : List Char) : Int :=
  match rfindFrom pat s 0 with
  | some j => (j : Int)
  | none => -1

/-- `max_length` default of `_split_text` (the server only ever uses the default). -/
def maxLength : Nat := 380

/-- `break_patterns` of `_split_text` (line 195).  The Python list holds pairs
whose second component is never read (the loop is `for pattern, _ in
break_patterns`), so only the first components are modelled. -/
def break_patterns : List (List Char) :=
  [chars ", ", chars " and ", chars " but ", chars ". ", chars " - ", chars "; ", chars " "]

/-- The marker-selection loop of `_split_text` (lines 205-212): for each pattern,
`pos = chunk_text.rfind(pattern)`; the pair `(best_break, best_pattern)` is
replaced whenever `pos > best_break and pos > max_length * 0.5`.
`best_break` starts at `-1`; `best_pattern` starts unset, modelled as `[]`.
Since `pos` is an integer, `pos > max_length * 0.5` is `2 * pos > max_length`. -/
def findBreak (ct : List Char) : Int × List Char :=
  break_patterns.foldl
    (fun best p =>
      if pyRfind p ct > best.1 ∧ 2 * pyRfind p ct > (maxLength : Int) then (pyRfind p ct, p)
      else best)
    (-1, chars "")

/-- One iteration of the `while len(remaining) > max_length` loop of
`_split_text` (lines 203-225), returning the appended chunk and the new
`remaining`.  The three branches are: cut after the selected marker and strip
both pieces (lines 214-217); `rsplit(' ', 1)` fallback at the last space of
the window (lines 219-222); hard cut at `max_length` (lines 223-225). -/
def split_step (remaining : List Char) : List Char × List Char :=
  if 0 < (findBreak (remaining.take maxLength)).1 then
    (pyStrip (remaining.take ((findBreak (remaining.take maxLength)).1.toNat +
        (findBreak (remaining.take maxLength)).2.length)),
     pyStrip (remaining.drop ((findBreak (remaining.take maxLength)).1.toNat +
        (findBreak (remaining.take maxLength)).2.length)))
  else
    match rfindFrom (chars " ") (remaining.take maxLength) 0 with
    | some j =>
        ((remaining.take maxLength).take j,
         (remaining.take maxLength).drop (j + 1) ++ remaining.drop maxLength)
    | none => (remaining.take maxLength, remaining.drop maxLength)

/-- The splitting loop of `_split_text` together with the trailing
`if remaining: chunks.append(remaining)` (lines 203-228).  The
`while len(remaining) > max_length` loop is encoded with an explicit
recursion-depth budget (first argument); `split_text` passes the length of
the text, which always suffices because every iteration strictly shortens
`remaining` (theorem `split_step_length_lt` below; `splitLoop_fuel_irrelevant`
shows the budget choice is immaterial).  The budget-exhausted case mirrors
the loop exit. -/
def splitLoop : Nat → List Char → List (List Char)
  | 0, remaining => if remaining.isEmpty then [] else [remaining]
  | fuel + 1, remaining =>
    if remaining.length ≤ maxLength then
      if remaining.isEmpty then [] else [remaining]
    else
      (split_step remaining).1 :: splitLoop fuel (split_step remaining).2

/-- `_split_text` (lines 189-230). -/
def split_text (text : List Char) : List (List Char) :=
  if text.length ≤ maxLength then [text] else splitLoop text.length text

/-- The sequence of non-whitespace characters of a text, in order.  Two texts
are equal "modulo whitespace collapse" in the sense of claim C3 (no
non-whitespace character lost, duplicated or reordered) exactly when this
sequence is equal. -/
def nonWhitespace (s : List Char) : List Char := s.filter (fun c => !(pyIsSpace c))

/-- Rejoin chunks with single spaces, as in claim C3. -/
def joinSp : List (List Char) → List Char
  | [] => []
  | [c] => c
  | c :: cs => c ++ chars " " ++ joinSp cs

/-- The personality-dependent text transformation of `speak` (lines 137-146).
For `grizzled`: prepend `"Listen kid, "` unless the text starts with `"Kid,"`
or `"Listen,"`, then append `"....."` unless the text already ends with
`"....."`. -/
def speak_text (text personality : List Char) : List Char :=
  if personality = chars "grizzled" then
    let t :=
      if !(List.isPrefixOf (chars "Kid,") text) && !(List.isPrefixOf (chars "Listen,") text) then
        chars "Listen kid, " ++ text
      else text
    if !(List.isSuffixOf (chars ".....") t) then t ++ chars "....." else t
  else if personality = chars "zen" then chars "Consider this: " ++ text
  else if personality = chars "professional" then chars "Please note: " ++ text
  else text

/-- `speak` (lines 132-159), modelled as a pure function from the text and the
personality to the pair (list of chunk texts handed to `_generate_and_play`,
returned status string).  An empty `text` short-circuits (lines 134-135)
before any transformation, synthesis or playback.  The `voice` argument does
not influence either component, and the status string is built from the
personality-transformed text (line 159 runs after line 140 reassigns `text`). -/
def speak_result (text _voice personality : List Char) : List (List Char) × List Char :=
  if text = [] then ([], chars "No text provided to speak")
  else
    let t := speak_text text personality
    (split_text t,
     if 50 < t.length then chars "Spoke: \x27" ++ t.take 50 ++ chars "...\x27"
     else chars "Spoke: \x27" ++ t ++ chars "\x27")

/-- The `prefixes.get(tone, '')` lookup of `announce` (lines 164-169). -/
def prefixes_get (tone : List Char) : List Char :=
  if tone = chars "success" then chars "Great news!"
  else if tone = chars "warning" then chars "Heads up:"
  else if tone = chars "info" then chars "Just so you know,"
  else if tone = chars "error" then chars "Oh no!"
  else []

/-- `announce` (lines 161-182), modelled as a pure function from the message
and tone to the pair (`full_message` handed to `_generate_and_play`,
returned status string).  Line 171 is
`full_message = f"{prefixes.get(tone, '')} {message}......"`. -/
def announce_result (message tone : List Char) : List Char × List Char :=
  (prefixes_get tone ++ chars " " ++ message ++ chars "......",
   chars "Announced: " ++ message)

/-- Observable actions of `_generate_and_play` (lines 232-316). -/
inductive GPEvent where
  | runSynth
  | runPlayer
  | unlinkScript
  | unlinkAudio
deriving DecidableEq

/-- Control flow of `_generate_and_play` (lines 284-316) as a trace of
observable actions, indexed by the synthesis subprocess return code.  The
player is started only under `if result.returncode == 0` (line 300); the
`finally` block (lines 310-316) attempts both `unlink` calls on every path
and swallows their errors with a bare `except: pass`, so the function
returns normally for every return code (no error propagates to the caller).
The player's own exit status is awaited and discarded. -/
def generate_and_play_events (returncode : Int) : List GPEvent :=
  [GPEvent.runSynth] ++ (if returncode = 0 then [GPEvent.runPlayer] else []) ++
    [GPEvent.unlinkScript, GPEvent.unlinkAudio]

/-- Modelled from the spec: the Durable Queue Store record (spec section 3),
`{tips: [...], last_update: timestamp}`.  The queue/locking/daemon code this
spec section describes is not part of `src/`, so it is modelled from the
spec's words. -/
structure QueueRecord where
  tips : List (List Char)
  last_update : Nat
deriving DecidableEq

/-- Modelled from the spec: the empty queue record a `load` of a missing or
corrupt file returns. -/
def emptyRecord : QueueRecord := ⟨[], 0⟩

/-- Modelled from the spec: `load()` reads and parses the persisted record
(spec section 4.2).  With the persisted record as explicit state, it returns
that state. -/
def load (st : QueueRecord) : QueueRecord := st

/-- Modelled from the spec: `append(tip)` under an available queue lock —
load, append the tip to the tips sequence, stamp `last_update`, save
(spec section 4.2). -/
def appendTip (st : QueueRecord) (tip : List Char) (now : Nat) : QueueRecord :=
  { tips := st.tips ++ [tip], last_update := now }

/-- Modelled from the spec: `drainSnapshot()` — load, if tips non-empty copy
them out and immediately save back an empty record, returning the copied
tips or empty (spec section 4.2).  The first component is the returned tip
list, the second the persisted record afterwards. -/
def drainSnapshot (st : QueueRecord) : List (List Char) × QueueRecord :=
  if st.tips.isEmpty then ([], st)
  else (st.tips, { tips := [], last_update := st.last_update })

/-! ### Definitions written from the claims, for comparison with the code

The following definitions follow the words of claims C1 and C2 (not the
source); they exist only to be compared against the code embeddings above. -/

/-- The break-marker preference list exactly as claim C1 (and spec section 4.4)
states it: comma-space, " and ", " but ", " because ", " so ", period-space,
" - ", semicolon-space, bare space. -/
def claim_break_markers : List (List Char) :=
  [chars ", ", chars " and ", chars " but ", chars " because ", chars " so ",
   chars ". ", chars " - ", chars "; ", chars " "]

/-- Claim C1's cut selection: the rightmost occurrence of the
highest-priority marker whose position is at least half of `maxLength` into
the window — the first marker in priority order whose rightmost occurrence
position `j` satisfies `maxLength ≤ 2 * j`. -/
def claimFindCut (ct : List Char) : Option (Nat × List Char) :=
  claim_break_markers.findSome? (fun p =>
    match rfindFrom p ct 0 with
    | some j => if maxLength ≤ 2 * j then some (j, p) else none
    | none => none)

/-- One iteration of the segmentation loop as claim C1 describes it: cut after
the selected marker and trim both pieces; if no marker qualifies, fall back
to the last plain space in the window; if even that is absent, hard-cut at
exactly `maxLength`. -/
def claim_split_step (remaining : List Char) : List Char × List Char :=
  match claimFindCut (remaining.take maxLength) with
  | some (j, p) =>
      (pyStrip (remaining.take (j + p.length)), pyStrip (remaining.drop (j + p.length)))
  | none =>
    match rfindFrom (chars " ") (remaining.take maxLength) 0 with
    | some j =>
        ((remaining.take maxLength).take j,
         (remaining.take maxLength).drop (j + 1) ++ remaining.drop maxLength)
    | none => (remaining.take maxLength, remaining.drop maxLength)

/-- The segmentation loop as claim C1 describes it, with the same explicit
recursion-depth budget encoding as `splitLoop`. -/
def claim_splitLoop : Nat → List Char → List (List Char)
  | 0, remaining => if remaining.isEmpty then [] else [remaining]
  | fuel + 1, remaining =>
    if remaining.length ≤ maxLength then
      if remaining.isEmpty then [] else [remaining]
    else
      (claim_split_step remaining).1 :: claim_splitLoop fuel (claim_split_step remaining).2

/-- `_split_text` as claim C1 describes it. -/
def claim_split_text (text : List Char) : List (List Char) :=
  if text.length ≤ maxLength then [text] else claim_splitLoop text.length text

/-- The marker selection of `_split_text` restated as claim C1 must be amended
to match the code: among the seven code markers, keep those whose rightmost
occurrence lies strictly more than half of `maxLength` into the window, and
choose the one with the greatest position, ties going to the earlier-listed
marker. -/
def amendedFindBreak (ct : List Char) : Int × List Char :=
  (break_patterns.filterMap (fun p =>
      if 2 * pyRfind p ct > (maxLength : Int) then some (pyRfind p ct, p) else none)).foldl
    (fun best x => if x.1 > best.1 then x else best) (-1, chars "")

/-- Claim C2's terminal-marker rule, following its words: the marker is
appended unless the text already ends with a triple-ellipsis, in which case
exactly two more dots are appended. -/
def claim_ellipsis_mark (t : List Char) : List Char :=
  if List.isSuffixOf (chars "...") t then t ++ chars ".." else t ++ chars "....."

/-! ## Helper lemmas -/

/-- A fold preserves any invariant preserved by its step function. -/
theorem foldl_preserve {α β : Type} (f : β → α → β) (P : β → Prop)
    (h : ∀ b a, P b → P (f b a)) : ∀ (l : List α) (b : β), P b → P (l.foldl f b)
  | [], _, hb => hb
  | a :: l, b, hb => foldl_preserve f P h l (f b a) (h b a hb)

/-- Soundness of `rfindFrom`: a returned index is at least the base index, at
most base plus length, and the pattern occurs there. -/
theorem rfindFrom_eq_some (pat : List Char) : ∀ (s : List Char) (i j : Nat),
    rfindFrom pat s i = some j →
    i ≤ j ∧ j ≤ i + s.length ∧ List.isPrefixOf pat (s.drop (j - i)) = true := by
  intro s
  induction s with
  | nil =>
    intro i j h
    simp only [rfindFrom] at h
    split at h
    · rename_i hpre
      injection h with h
      subst h
      exact ⟨le_rfl, by simp, by simpa using hpre⟩
    · cases h
  | cons c rest ih =>
    intro i j h
    simp only [rfindFrom] at h
    cases hrec : rfindFrom pat rest (i + 1) with
    | some j2 =>
      simp only [hrec] at h
      injection h with h
      subst h
      obtain ⟨h1, h2, h3⟩ := ih (i + 1) j2 hrec
      refine ⟨by omega, by simp only [List.length_cons]; omega, ?_⟩
      have hj : j2 - i = (j2 - (i + 1)) + 1 := by omega
      rw [hj, List.drop_succ_cons]
      exact h3
    | none =>
      simp only [hrec] at h
      split at h
      · rename_i hpre
        injection h with h
        subst h
        exact ⟨le_rfl, by simp, by simpa using hpre⟩
      · cases h

/-- Stripping never lengthens a text. -/
theorem pyStrip_length_le (s : List Char) : (pyStrip s).length ≤ s.length := by
  simp only [pyStrip, List.length_reverse]
  exact le_trans (List.dropWhile_sublist _).length_le
    (le_trans (le_of_eq (List.length_reverse _)) (List.dropWhile_sublist _).length_le)

/-- When `findBreak` selects a break, cutting after the selected pattern stays
inside the window. -/
theorem findBreak_le (ct : List Char) :
    0 < (findBreak ct).1 → (findBreak ct).1.toNat + (findBreak ct).2.length ≤ ct.length := by
  simp only [findBreak]
  refine foldl_preserve _ (fun best => 0 < best.1 → best.1.toNat + best.2.length ≤ ct.length)
    ?_ break_patterns (-1, chars "") (fun h0 => absurd h0 (by decide))
  intro b p hb
  split
  · rename_i hcond
    intro _
    cases hrf : rfindFrom p ct 0 with
    | none =>
      exfalso
      have hv : pyRfind p ct = -1 := by simp [pyRfind, hrf]
      rw [hv] at hcond
      exact absurd hcond.2 (by decide)
    | some j =>
      have hv : pyRfind p ct = (j : Int) := by simp [pyRfind, hrf]
      obtain ⟨_, hjs, hpre⟩ := rfindFrom_eq_some p ct 0 j hrf
      have hlen : p.length ≤ (ct.drop (j - 0)).length :=
        (List.isPrefixOf_iff_prefix.mp hpre).length_le
      simp only [Nat.sub_zero, List.length_drop] at hlen
      simp only [hv, Int.toNat_ofNat]
      omega
  · intro h0
    exact hb h0

/-- Each iteration of the splitting loop strictly shortens `remaining`, in all
three branches (marker cut, last-space fallback, hard cut). -/
theorem split_step_length_lt (remaining : List Char) (h : maxLength < remaining.length) :
    ((split_step remaining).2).length < remaining.length := by
  have hm : maxLength = 380 := rfl
  simp only [split_step]
  split
  · rename_i h1
    dsimp only
    have hstrip := pyStrip_length_le (remaining.drop
      ((findBreak (remaining.take maxLength)).1.toNat +
        (findBreak (remaining.take maxLength)).2.length))
    have hdrop :
        (remaining.drop ((findBreak (remaining.take maxLength)).1.toNat +
          (findBreak (remaining.take maxLength)).2.length)).length =
        remaining.length - ((findBreak (remaining.take maxLength)).1.toNat +
          (findBreak (remaining.take maxLength)).2.length) := List.length_drop _ _
    have hpos : 0 < (findBreak (remaining.take maxLength)).1.toNat := by omega
    omega
  · split
    · rename_i j _hj
      dsimp only
      simp only [List.length_append, List.length_drop, List.length_take]
      omega
    · dsimp only
      simp only [List.length_drop]
      omega

/-- Every chunk emitted by one loop iteration fits in `maxLength`. -/
theorem split_step_chunk_le (remaining : List Char) (h : maxLength < remaining.length) :
    ((split_step remaining).1).length ≤ maxLength := by
  simp only [split_step]
  split
  · rename_i h1
    dsimp only
    have hb := findBreak_le (remaining.take maxLength) h1
    have hct : (remaining.take maxLength).length = maxLength := by
      simp only [List.length_take]
      omega
    have hstrip := pyStrip_length_le (remaining.take
      ((findBreak (remaining.take maxLength)).1.toNat +
        (findBreak (remaining.take maxLength)).2.length))
    have htake : (remaining.take ((findBreak (remaining.take maxLength)).1.toNat +
        (findBreak (remaining.take maxLength)).2.length)).length =
        min ((findBreak (remaining.take maxLength)).1.toNat +
          (findBreak (remaining.take maxLength)).2.length) remaining.length :=
      List.length_take _ _
    omega
  · split
    · rename_i j _hj
      dsimp only
      simp only [List.length_take]
      omega
    · dsimp only
      simp only [List.length_take]
      omega

/-- The loop never runs out of budget: any budget at least the length of the
input produces the same chunk list. -/
theorem splitLoop_fuel_irrelevant : ∀ (n m : Nat) (r : List Char),
    r.length ≤ n → r.length ≤ m → splitLoop n r = splitLoop m r := by
  intro n
  induction n with
  | zero =>
    intro m r h1 _
    have hr : r = [] := List.length_eq_zero.mp (Nat.le_zero.mp h1)
    subst hr
    cases m <;> simp [splitLoop, maxLength]
  | succ n ih =>
    intro m r h1 h2
    cases m with
    | zero =>
      have hr : r = [] := List.length_eq_zero.mp (Nat.le_zero.mp h2)
      subst hr
      simp [splitLoop, maxLength]
    | succ m =>
      simp only [splitLoop]
      split
      · rfl
      · rename_i hgt
        have hlt := split_step_length_lt r (by omega)
        rw [ih m ((split_step r).2) (by omega) (by omega)]

/-! ## Claim theorems -/

/-- C5: for every input text with `len(text) <= maxLength` (380), `_split_text`
returns exactly one chunk, and that chunk is the input text. -/
theorem c5_short_input (text : List Char) (h : text.length ≤ maxLength) :
    split_text text = [text] := by
  simp [split_text, h]

/-- Witness for C5 at the concrete input `"ok"`. -/
theorem c5_witness : (chars "ok").length ≤ maxLength ∧ split_text (chars "ok") = [chars "ok"] :=
  ⟨by decide, c5_short_input _ (by decide)⟩

/-- C6: `_split_text` terminates on every input: each iteration of its
splitting loop strictly shortens the remaining text, in the marker-cut
branch, the last-space fallback branch, and the hard-cut branch alike
(hence the recursion budget `text.length` used by `split_text` never runs
out, see `splitLoop_fuel_irrelevant`). -/
theorem c6_termination (remaining : List Char) (h : maxLength < remaining.length) :
    ((split_step remaining).2).length < remaining.length :=
  split_step_length_lt remaining h

set_option maxRecDepth 10000 in
/-- Witness for C6 at a concrete 400-character input. -/
theorem c6_witness : maxLength < (List.replicate 400 'x').length ∧
    ((split_step (List.replicate 400 'x')).2).length < (List.replicate 400 'x').length :=
  ⟨by decide, c6_termination _ (by decide)⟩

/-- C9: calling `speak` with the empty string performs no text transformation,
synthesizes and plays no chunk, and returns "No text provided to speak". -/
theorem c9_empty_text (voice personality : List Char) :
    speak_result [] voice personality = ([], chars "No text provided to speak") := rfl

/-- C10: for each of the four tones, the text handed to synthesis is exactly
the tone's fixed prefix, a single space, the message, and exactly six dots,
and `announce` returns "Announced: " followed by the original message. -/
theorem c10_announce (message : List Char) :
    announce_result message (chars "success") =
      (chars "Great news!" ++ chars " " ++ message ++ chars "......",
       chars "Announced: " ++ message) ∧
    announce_result message (chars "warning") =
      (chars "Heads up:" ++ chars " " ++ message ++ chars "......",
       chars "Announced: " ++ message) ∧
    announce_result message (chars "info") =
      (chars "Just so you know," ++ chars " " ++ message ++ chars "......",
       chars "Announced: " ++ message) ∧
    announce_result message (chars "error") =
      (chars "Oh no!" ++ chars " " ++ message ++ chars "......",
       chars "Announced: " ++ message) :=
  ⟨rfl, rfl, rfl, rfl⟩

/-- C7: a synthesis subprocess exiting non-zero is chunk failure: the temp
script and audio deletions are attempted on every path, and when the return
code is non-zero the trace contains no player invocation (and the function
returns normally, so no error propagates). -/
theorem c7_synth_failure (rc : Int) :
    GPEvent.unlinkScript ∈ generate_and_play_events rc ∧
    GPEvent.unlinkAudio ∈ generate_and_play_events rc ∧
    (rc ≠ 0 → generate_and_play_events rc =
      [GPEvent.runSynth, GPEvent.unlinkScript, GPEvent.unlinkAudio]) := by
  by_cases h : rc = 0 <;> simp [generate_and_play_events, h]

/-- Witness for C7 at return code 1. -/
theorem c7_witness : (1 : Int) ≠ 0 ∧ generate_and_play_events 1 =
    [GPEvent.runSynth, GPEvent.unlinkScript, GPEvent.unlinkAudio] :=
  ⟨by decide, (c7_synth_failure 1).2.2 (by decide)⟩

/-- Appending tips accumulates them in order. -/
theorem foldl_appendTip_tips : ∀ (items : List (List Char × Nat)) (st : QueueRecord),
    (items.foldl (fun st it => appendTip st it.1 it.2) st).tips =
      st.tips ++ items.map Prod.fst := by
  intro items
  induction items with
  | nil => intro st; simp
  | cons it items ih =>
    intro st
    rw [List.foldl_cons, ih]
    simp [appendTip]

/-- A drain returns exactly the stored tips. -/
theorem drainSnapshot_fst (st : QueueRecord) : (drainSnapshot st).1 = st.tips := by
  simp only [drainSnapshot]
  split
  · rename_i h
    exact (List.isEmpty_iff.mp h).symm
  · rfl

/-- After a drain the persisted tips are empty. -/
theorem drainSnapshot_snd_tips (st : QueueRecord) : ((drainSnapshot st).2).tips = [] := by
  simp only [drainSnapshot]
  split
  · rename_i h
    exact List.isEmpty_iff.mp h
  · rfl

/-- C8: appending any sequence of tips to the empty record and then draining
returns exactly that sequence in append order, and a following `load`
observes an empty tips sequence. -/
theorem c8_drain (items : List (List Char × Nat)) :
    (drainSnapshot (items.foldl (fun st it => appendTip st it.1 it.2) emptyRecord)).1 =
      items.map Prod.fst ∧
    (load ((drainSnapshot (items.foldl (fun st it => appendTip st it.1 it.2) emptyRecord)).2)).tips
      = [] := by
  constructor
  · rw [drainSnapshot_fst, foldl_appendTip_tips]
    rfl
  · simp only [load]
    exact drainSnapshot_snd_tips _

/-- `nonWhitespace` distributes over concatenation. -/
theorem nonWhitespace_append (a b : List Char) :
    nonWhitespace (a ++ b) = nonWhitespace a ++ nonWhitespace b :=
  List.filter_append _ _

/-- Dropping leading whitespace does not change the non-whitespace content. -/
theorem nonWhitespace_dropWhile (s : List Char) :
    nonWhitespace (List.dropWhile pyIsSpace s) = nonWhitespace s := by
  induction s with
  | nil => rfl
  | cons c t ih =>
    cases h : pyIsSpace c with
    | false => rw [List.dropWhile_cons, if_neg (by simp [h])]
    | true =>
      rw [List.dropWhile_cons, if_pos h, ih]
      simp only [nonWhitespace, List.filter_cons, h]
      rfl

/-- `nonWhitespace` commutes with reversal. -/
theorem nonWhitespace_reverse (s : List Char) :
    nonWhitespace s.reverse = (nonWhitespace s).reverse :=
  List.filter_reverse _ _

/-- Stripping does not change the non-whitespace content. -/
theorem nonWhitespace_pyStrip (s : List Char) :
    nonWhitespace (pyStrip s) = nonWhitespace s := by
  unfold pyStrip
  rw [nonWhitespace_reverse, nonWhitespace_dropWhile, nonWhitespace_reverse,
    nonWhitespace_dropWhile, List.reverse_reverse]

/-- Joining with a single space adds no non-whitespace content. -/
theorem nonWhitespace_joinSp_cons (c : List Char) (cs : List (List Char)) :
    nonWhitespace (joinSp (c :: cs)) = nonWhitespace c ++ nonWhitespace (joinSp cs) := by
  have hsp : nonWhitespace (chars " ") = [] := rfl
  cases cs with
  | nil =>
    show nonWhitespace c = nonWhitespace c ++ nonWhitespace []
    rw [show nonWhitespace [] = [] from rfl, List.append_nil]
  | cons d ds =>
    show nonWhitespace (c ++ chars " " ++ joinSp (d :: ds)) = _
    rw [nonWhitespace_append, nonWhitespace_append, hsp, List.append_nil]

/-- One loop iteration preserves the non-whitespace content: the emitted chunk
and the new remainder together carry exactly the old remainder's content. -/
theorem split_step_nonWS (r : List Char) :
    nonWhitespace ((split_step r).1) ++ nonWhitespace ((split_step r).2) = nonWhitespace r := by
  simp only [split_step]
  split
  · dsimp only
    rw [nonWhitespace_pyStrip, nonWhitespace_pyStrip, ← nonWhitespace_append,
      List.take_append_drop]
  · split
    · rename_i j hj
      dsimp only
      obtain ⟨_, _, hpre⟩ := rfindFrom_eq_some (chars " ") (r.take maxLength) 0 j hj
      simp only [Nat.sub_zero] at hpre
      obtain ⟨t, ht⟩ := List.isPrefixOf_iff_prefix.mp hpre
      have htd : (r.take maxLength).drop (j + 1) = t := by
        have h1 : (chars " " ++ t).drop 1 = t := rfl
        rw [ht, List.drop_drop] at h1
        exact h1
      have hsp : nonWhitespace ((r.take maxLength).drop j) = nonWhitespace t := by
        rw [← ht]
        rfl
      rw [nonWhitespace_append, htd, ← hsp, ← List.append_assoc, ← nonWhitespace_append,
        List.take_append_drop, ← nonWhitespace_append, List.take_append_drop]
    · dsimp only
      rw [← nonWhitespace_append, List.take_append_drop]

/-- The splitting loop preserves the non-whitespace content of its input. -/
theorem splitLoop_nonWS : ∀ (fuel : Nat) (r : List Char), r.length ≤ fuel →
    nonWhitespace (joinSp (splitLoop fuel r)) = nonWhitespace r := by
  intro fuel
  induction fuel with
  | zero =>
    intro r hr
    have hnil : r = [] := List.length_eq_zero.mp (Nat.le_zero.mp hr)
    subst hnil
    rfl
  | succ n ih =>
    intro r hr
    simp only [splitLoop]
    split
    · split
      · rename_i hemp
        have hnil : r = [] := List.isEmpty_iff.mp hemp
        subst hnil
        rfl
      · rfl
    · rename_i hgt
      rw [nonWhitespace_joinSp_cons,
        ih ((split_step r).2) (by have := split_step_length_lt r (by omega); omega)]
      exact split_step_nonWS r

/-- Every chunk the splitting loop emits has length at most `maxLength`. -/
theorem splitLoop_chunk_le : ∀ (fuel : Nat) (r : List Char), r.length ≤ fuel →
    ∀ c ∈ splitLoop fuel r, c.length ≤ maxLength := by
  intro fuel
  induction fuel with
  | zero =>
    intro r hr c hc
    have hnil : r = [] := List.length_eq_zero.mp (Nat.le_zero.mp hr)
    subst hnil
    simp [splitLoop] at hc
  | succ n ih =>
    intro r hr c hc
    simp only [splitLoop] at hc
    by_cases hle : r.length ≤ maxLength
    · rw [if_pos hle] at hc
      split at hc
      · simp at hc
      · rw [List.mem_singleton] at hc
        subst hc
        exact hle
    · rw [if_neg hle] at hc
      rcases List.mem_cons.mp hc with hc1 | hc2
      · subst hc1
        exact split_step_chunk_le r (by omega)
      · exact ih ((split_step r).2)
          (by have := split_step_length_lt r (by omega); omega) c hc2

/-- C3: rejoining the chunks of `_split_text` with single spaces reconstructs
the input modulo whitespace: the sequence of non-whitespace characters is
preserved exactly (nothing lost, duplicated or reordered). -/
theorem c3_whitespace_roundtrip (text : List Char) :
    nonWhitespace (joinSp (split_text text)) = nonWhitespace text := by
  simp only [split_text]
  split
  · rfl
  · exact splitLoop_nonWS text.length text le_rfl

set_option maxRecDepth 10000 in
/-- C4 counterexample: a 400-character all-space input makes `_split_text`
return a single empty chunk, so chunks are not always non-empty (the
marker-cut branch strips a window that contains only whitespace down to
nothing). -/
theorem c4_counterexample :
    split_text (List.replicate 400 (Char.ofNat 32)) = [[]] := by decide

/-- C4 as amended: every chunk returned by `_split_text` has length at most
`maxLength` (380) — even an unbroken overlong token is hard-cut, so no chunk
ever exceeds it — but chunks are not guaranteed non-empty or trimmed (see
`c4_counterexample`). -/
theorem c4_chunk_length (text c : List Char) (hc : c ∈ split_text text) :
    c.length ≤ maxLength := by
  simp only [split_text] at hc
  split at hc
  · rename_i hle
    rw [List.mem_singleton] at hc
    subst hc
    exact hle
  · exact splitLoop_chunk_le text.length text le_rfl c hc

/-- Witness for C4 at the concrete input `"hi"`. -/
theorem c4_witness : chars "hi" ∈ split_text (chars "hi") ∧ (chars "hi").length ≤ maxLength :=
  ⟨by decide, c4_chunk_length (chars "hi") (chars "hi") (by decide)⟩

/-- The single-pass best-break fold equals filtering the qualifying markers
and then taking the rightmost-position one. -/
theorem foldl_break_filterMap (ct : List Char) : ∀ (ps : List (List Char)) (b : Int × List Char),
    ps.foldl (fun best p =>
        if pyRfind p ct > best.1 ∧ 2 * pyRfind p ct > (maxLength : Int) then (pyRfind p ct, p)
        else best) b
      = (ps.filterMap (fun p =>
          if 2 * pyRfind p ct > (maxLength : Int) then some (pyRfind p ct, p) else none)).foldl
        (fun best x => if x.1 > best.1 then x else best) b := by
  intro ps
  induction ps with
  | nil => intro b; rfl
  | cons p ps ih =>
    intro b
    by_cases hq : 2 * pyRfind p ct > (maxLength : Int)
    · rw [List.foldl_cons, List.filterMap_cons]
      simp only [if_pos hq, eq_true hq, and_true, List.foldl_cons]
      exact ih _
    · rw [List.foldl_cons, List.filterMap_cons]
      simp only [if_neg hq, eq_false hq, and_false, if_false]
      exact ih b

set_option maxRecDepth 10000 in
/-- C1 counterexample: on the 400-character input consisting of 195 `a`s,
comma-space, 103 `b`s, period-space and 98 `c`s, the cut prescribed by the
claim (highest-priority marker at least half the window in: the comma-space
at index 195) differs from the cut the code makes (the rightmost qualifying
marker: the bare space at index 301, after the period), so the chunk lists
differ. -/
theorem c1_counterexample :
    claim_split_text (List.replicate 195 'a' ++ chars ", " ++ List.replicate 103 'b' ++
      chars ". " ++ List.replicate 98 'c') ≠
    split_text (List.replicate 195 'a' ++ chars ", " ++ List.replicate 103 'b' ++
      chars ". " ++ List.replicate 98 'c') := by decide

/-- C1 as amended: the marker list has no " because " or " so " entries
(only comma-space, " and ", " but ", period-space, " - ", semicolon-space,
bare space), and the selected cut is not the highest-priority qualifying
marker but the qualifying marker occurrence with the greatest position —
rightmost occurrence strictly more than half of `maxLength` into the
window, ties going to the earlier-listed marker; the last-space fallback
and the hard cut are as the claim states. -/
theorem c1_marker_selection (ct : List Char) : findBreak ct = amendedFindBreak ct := by
  simp only [findBreak, amendedFindBreak]
  exact foldl_break_filterMap ct break_patterns (-1, chars "")

/-- C2 counterexample: for the input "Listen, wait..." (which already ends in
a triple-ellipsis), the claim prescribes appending exactly two dots, giving
"Listen, wait....."; the grizzled path of `speak` instead appends five dots,
giving "Listen, wait........". -/
theorem c2_counterexample :
    speak_text (chars "Listen, wait...") (chars "grizzled") = chars "Listen, wait........" ∧
    speak_text (chars "Listen, wait...") (chars "grizzled") ≠
      claim_ellipsis_mark (chars "Listen, wait...") := by decide

/-- C2 as amended: the grizzled text built by `speak` always ends with the
marker "....." — five dots are appended unless the text already ends with
five dots (not: two dots appended after a triple-ellipsis) — and the
announcement text built by `announce` always ends with "......", six dots
being appended unconditionally; these terminal markers appear verbatim in
the text handed to the synthesis step. -/
theorem c2_terminal_marker (text message tone : List Char) :
    List.isSuffixOf (chars ".....") (speak_text text (chars "grizzled")) = true ∧
    List.isSuffixOf (chars "......") ((announce_result message tone).1) = true := by
  constructor
  · have hred : speak_text text (chars "grizzled") =
        (if !(List.isSuffixOf (chars ".....")
            (if !(List.isPrefixOf (chars "Kid,") text) &&
                !(List.isPrefixOf (chars "Listen,") text) then
              chars "Listen kid, " ++ text
            else text)) then
          (if !(List.isPrefixOf (chars "Kid,") text) &&
              !(List.isPrefixOf (chars "Listen,") text) then
            chars "Listen kid, " ++ text
          else text) ++ chars "....."
        else
          (if !(List.isPrefixOf (chars "Kid,") text) &&
              !(List.isPrefixOf (chars "Listen,") text) then
            chars "Listen kid, " ++ text
          else text)) := rfl
    rw [hred]
    cases hs : List.isSuffixOf (chars ".....")
        (if !(List.isPrefixOf (chars "Kid,") text) &&
            !(List.isPrefixOf (chars "Listen,") text) then
          chars "Listen kid, " ++ text
        else text) with
    | false =>
      simp only [Bool.not_false, if_true]
      rw [List.isSuffixOf_iff_suffix]
      exact List.suffix_append _ _
    | true =>
      simp only [Bool.not_true, if_false]
      exact hs
  · rw [List.isSuffixOf_iff_suffix]
    exact List.suffix_append _ _

end KittenTTS
